import Mathlib

/-!
Verification of the mpvRecall core (src/main.py) against its specification.

The Python source is shallowly embedded: pure string processing becomes
functions on `List Char` / `String`, the session store (a JSON dict) becomes
an association list, filesystem facts (existence of a path, a directory
listing) and the captured output of the player process are inputs to the
embedded functions.  Playback positions are exact rationals: every position
the program computes is `float(h*3600+m*60+s)`, an integer value exactly
representable in floating point, so `ℚ` is a faithful carrier.
-/

namespace MpvRecall

/-- The fixed marker emitted via `--term-status-msg=[mpvRecall]PATH:...`
(src/main.py line 60); `line.startswith("[mpvRecall]")` keys on it. -/
def markerChars : List Char := ['[', 'm', 'p', 'v', 'R', 'e', 'c', 'a', 'l', 'l', ']']

/-- The literal `PATH:` that begins the regex `PATH:(.*?)#POS:(\d{1,2}:\d{2}:\d{2})`. -/
def pathTag : List Char := ['P', 'A', 'T', 'H', ':']

/-- The literal `#POS:` separating path from time in the status line. -/
def posTag : List Char := ['#', 'P', 'O', 'S', ':']

/-- Python `str.strip()` on the captured stdout (line 112); default strip of
leading/trailing whitespace. -/
def pyStrip (l : List Char) : List Char :=
  ((l.dropWhile Char.isWhitespace).reverse.dropWhile Char.isWhitespace).reverse

/-- Python `.replace('\r', '\n')` (line 112): a one-character substring
replacement, i.e. a character-wise map. -/
def pyReplaceCR (l : List Char) : List Char :=
  l.map (fun c => if c = '\r' then '\n' else c)

/-- Python `str.split(sep)` for a one-character separator: `"".split` gives
`[""]`, and every separator occurrence opens a new field. -/
def splitChar (sep : Char) : List Char → List (List Char)
  | [] => [[]]
  | c :: rest =>
    if c = sep then [] :: splitChar sep rest
    else
      match splitChar sep rest with
      | [] => [[c]]
      | g :: gs => (c :: g) :: gs

/-- `\d{2}:\d{2}:\d{2}` — the greedy two-digit-hour alternative of
`\d{1,2}:\d{2}:\d{2}`, tried first by the regex engine. -/
def matchTime2 : List Char → Option (List Char)
  | a :: b :: c :: d :: e :: f :: g :: i :: _ =>
    if a.isDigit && b.isDigit && c = ':' && d.isDigit && e.isDigit && f = ':'
        && g.isDigit && i.isDigit then
      some [a, b, c, d, e, f, g, i]
    else none
  | _ => none

/-- `\d:\d{2}:\d{2}` — the one-digit-hour alternative, tried on backtracking. -/
def matchTime1 : List Char → Option (List Char)
  | a :: b :: c :: d :: e :: f :: g :: _ =>
    if a.isDigit && b = ':' && c.isDigit && d.isDigit && e = ':'
        && f.isDigit && g.isDigit then
      some [a, b, c, d, e, f, g]
    else none
  | _ => none

/-- The time token `\d{1,2}:\d{2}:\d{2}` at the current position: the greedy
`{1,2}` tries two hour digits first, then one. -/
def matchTime (cs : List Char) : Option (List Char) :=
  match matchTime2 cs with
  | some t => some t
  | none => matchTime1 cs

/-- Does `#POS:` followed by a valid time token match at the current
position?  Returns the token when it does. -/
def posHere (cs : List Char) : Option (List Char) :=
  if cs.take 5 = posTag then matchTime (cs.drop 5) else none

/-- The lazy `(.*?)#POS:(\d{1,2}:\d{2}:\d{2})` tail of the regex: expand the
path span minimally until `#POS:<time>` matches; `.` never crosses a
newline.  Returns (path span, time token). -/
def searchPos : List Char → Option (List Char × List Char)
  | [] => none
  | c :: rest =>
    match posHere (c :: rest) with
    | some tok => some ([], tok)
    | none =>
      if c = '\n' then none
      else
        match searchPos rest with
        | some (pth, tok) => some (c :: pth, tok)
        | none => none

/-- Attempt the whole pattern `PATH:(.*?)#POS:(\d{1,2}:\d{2}:\d{2})` anchored
at the current position. -/
def matchAt (cs : List Char) : Option (List Char × List Char) :=
  if cs.take 5 = pathTag then searchPos (cs.drop 5) else none

/-- `re.search`: the leftmost position at which the whole pattern matches
wins (line 121). -/
def reSearch : List Char → Option (List Char × List Char)
  | [] => none
  | c :: rest =>
    match matchAt (c :: rest) with
    | some r => some r
    | none => reSearch rest

/-- Digit string to number, as Python `int` computes it on an all-digit
string. -/
def digitsToNat (l : List Char) : ℕ :=
  l.foldl (fun a c => a * 10 + (c.toNat - 48)) 0

/-- Python `int(s)` on the captured groups: the groups are produced by `\d`
patterns so they are nonempty digit strings; any other shape raises
`ValueError`, modelled as `none` (the source catches it, line 132). -/
def parseNat (l : List Char) : Option ℕ :=
  if l ≠ [] ∧ l.all Char.isDigit then some (digitsToNat l) else none

/-- Lines 126-128: `parts = time_str.split(':')`, `h, m, s = map(int, parts)`
(a `ValueError`/`IndexError` is caught, line 132), then
`h * 3600 + m * 60 + s`. -/
def parseTimeStr (tok : List Char) : Option ℕ :=
  match splitChar ':' tok with
  | [hs, ms, ss] => do
    let hv ← parseNat hs
    let mv ← parseNat ms
    let sv ← parseNat ss
    pure (hv * 3600 + mv * 60 + sv)
  | _ => none

/-- The value returned by `play` on a successful parse:
`{"path": file_path, "position": position}` (line 131). -/
structure ExitInfo where
  path : String
  position : ℚ
deriving DecidableEq, Repr

/-- Lines 121-135: regex search on the last status line, conversion of the
time token to seconds, and the `position > 2` significance gate. -/
def parseStatusLine (line : List Char) : Option ExitInfo :=
  match reSearch line with
  | none => none
  | some (pathChars, tok) =>
    match parseTimeStr tok with
    | none => none
    | some secs =>
      if 2 < (secs : ℚ) then some ⟨String.mk pathChars, (secs : ℚ)⟩ else none

/-- `line.startswith("[mpvRecall]")` (line 115). -/
def isMarkerLine (l : List Char) : Bool := markerChars.isPrefixOf l

/-- Lines 111-116: iterate over all lines keeping the last marker line;
the accumulator starts as the empty string. -/
def lastStatusLine (lines : List (List Char)) : List Char :=
  lines.foldl (fun acc l => if isMarkerLine l then l else acc) []

/-- Lines 107-135 of `play`: the exit-status parse of a finished run.  Both
captured streams are received, as `subprocess.run(..., capture_output=True)`
captures both, but the source scans `proc.stdout` only. -/
def parsePlayOutput (stdout _stderr : String) : Option ExitInfo :=
  if lastStatusLine (splitChar '\n' (pyReplaceCR (pyStrip stdout.data))) = [] then
    none
  else
    parseStatusLine (lastStatusLine (splitChar '\n' (pyReplaceCR (pyStrip stdout.data))))

/-- The status line mpv's `--term-status-msg` template produces for a file
path `p` at playback time `t`: `[mpvRecall]PATH:<p>#POS:<t>`. -/
def mkLine (p t : List Char) : List Char :=
  markerChars ++ (pathTag ++ (p ++ (posTag ++ t)))

/-- The two admissible `H:MM:SS` time-token shapes (one- or two-digit hour)
together with the seconds value `h*3600 + m*60 + s` the source computes from
the token's digits (`Char.toNat c - 48` is the value of a digit). -/
def tokenShape (t : List Char) (secs : ℕ) : Prop :=
  (∃ a b c d e, (a.isDigit = true ∧ b.isDigit = true ∧ c.isDigit = true
      ∧ d.isDigit = true ∧ e.isDigit = true)
    ∧ t = [a, ':', b, c, ':', d, e]
    ∧ secs = (a.toNat - 48) * 3600 + ((b.toNat - 48) * 10 + (c.toNat - 48)) * 60
        + ((d.toNat - 48) * 10 + (e.toNat - 48))) ∨
  (∃ a b c d e f, (a.isDigit = true ∧ b.isDigit = true ∧ c.isDigit = true
      ∧ d.isDigit = true ∧ e.isDigit = true ∧ f.isDigit = true)
    ∧ t = [a, b, ':', c, d, ':', e, f]
    ∧ secs = ((a.toNat - 48) * 10 + (b.toNat - 48)) * 3600
        + ((c.toNat - 48) * 10 + (d.toNat - 48)) * 60
        + ((e.toNat - 48) * 10 + (f.toNat - 48)))

/-! ## Media scanner (`get_media_files`, lines 151-161) -/

/-- The fixed extension allow-list (line 153). -/
def mediaExts : List (List Char) :=
  [".mp4".data, ".mkv".data, ".avi".data, ".mov".data, ".flv".data,
   ".webm".data, ".mp3".data, ".wav".data, ".ogg".data]

/-- `f.lower().endswith(media_extensions)` (line 158); the extensions are
ASCII so character-wise `Char.toLower` matches Python `str.lower` here. -/
def hasMediaExt (name : String) : Bool :=
  mediaExts.any (fun e => e.isSuffixOf (name.data.map Char.toLower))

/-- Code-point lexicographic comparison of character lists — the order
Python `sorted` applies to strings. -/
def lexLe : List Char → List Char → Bool
  | [], _ => true
  | _ :: _, [] => false
  | a :: as, b :: bs =>
    if a < b then true
    else if a = b then lexLe as bs
    else false

/-- Python string comparison `a <= b`: code-point lexicographic. -/
def pyLe (a b : String) : Bool := lexLe a.data b.data

instance decPyLe : DecidableRel (fun a b : String => pyLe a b = true) :=
  fun _ _ => instDecidableEqBool _ _

/-- POSIX `os.path.join(folder, f)` for the two-argument case (line 156). -/
def pyJoin (folder name : String) : String :=
  if name.data.head? = some '/' then name
  else if folder = "" ∨ folder.data.getLast? = some '/' then folder ++ name
  else folder ++ "/" ++ name

/-- Lines 151-161: the scan input is the result of `os.listdir` together
with the `os.path.isfile` fact for each entry; `none` models any enumeration
exception (the bare `except Exception: return []`). -/
def get_media_files (folder : String) (listing : Option (List (String × Bool))) :
    List String :=
  match listing with
  | none => []
  | some entries =>
    List.insertionSort (fun a b => pyLe a b = true)
      ((entries.filter (fun e => e.2 && hasMediaExt e.1)).map
        (fun e => pyJoin folder e.1))

/-! ## Session store -/

/-- One stored session value (the dict built at lines 377-383; resume
updates three of its fields in place, lines 316-318). -/
structure Session where
  path : String
  is_folder : Bool
  last_played_file : String
  last_played_position : ℚ
  last_played_timestamp : String
deriving DecidableEq, Repr

/-- The JSON store object: a mapping keyed by the originally selected path,
modelled as an association list in insertion order (Python dicts preserve
insertion order). -/
abbrev Store := List (String × Session)

/-- What the filesystem presents to `load_all_sessions` (lines 34-42):
the file may be absent (`os.path.exists` false); it may exist but `open`
or the underlying read may raise an `OSError` (permission denied, or the
file vanished between the `exists` check and `open`); its bytes may fail
text decoding, in which case the `f.read()` inside `json.load` raises
`UnicodeDecodeError`; or it decodes to a text `content`. -/
inductive FileRead where
  | missing
  | unreadable
  | undecodable
  | content (s : String)

/-- The outcome of `json.load` on decoded text, abstracting the JSON
parser: a JSON object (deserialized into sessions), some other valid JSON
value (array, number, string, ...), or a `json.JSONDecodeError` on
syntactically invalid JSON. -/
inductive JsonResult where
  | obj (m : Store)
  | nonObj
  | decodeError

/-- What `load_all_sessions` does for its caller: return a mapping, return
a non-mapping JSON value as-is, or let an exception propagate. -/
inductive LoadResult where
  | mapping (s : Store)
  | nonMapping
  | raisedOSError
  | raisedUnicodeDecodeError
deriving DecidableEq, Repr

/-- `load_all_sessions` (lines 34-42).  The `try` block covers `open` and
`json.load`, but the `except` clause names only `json.JSONDecodeError`:
an `OSError` from `open`/read and a `UnicodeDecodeError` from decoding the
file's bytes (both outside the `JSONDecodeError` hierarchy) propagate to
the caller, and a valid JSON value that is not an object is returned
unvalidated. -/
def load_all_sessions (parse : String → JsonResult) : FileRead → LoadResult
  | .missing => .mapping []
  | .unreadable => .raisedOSError
  | .undecodable => .raisedUnicodeDecodeError
  | .content s =>
    match parse s with
    | .obj m => .mapping m
    | .nonObj => .nonMapping
    | .decodeError => .mapping []

/-- `del all_sessions[k]` (lines 286, 327). -/
def eraseKey (s : Store) (k : String) : Store :=
  s.filter (fun e => !(e.1 == k))

/-- Lines 316-318: in-place update of the three refreshed fields of an
existing entry. -/
def updateSession (s : Store) (k : String) (info : ExitInfo) (now : String) :
    Store :=
  s.map (fun e =>
    if e.1 == k then
      (e.1, { e.2 with
                last_played_file := info.path
                last_played_position := info.position
                last_played_timestamp := now })
    else e)

/-- `all_sessions[path] = info_to_save` (line 384): Python dict assignment,
replacing in place when the key exists, appending otherwise. -/
def upsert (s : Store) (k : String) (v : Session) : Store :=
  if s.any (fun e => e.1 == k) then
    s.map (fun e => if e.1 == k then (k, v) else e)
  else s ++ [(k, v)]

/-! ## Player launcher (`play`, lines 50-105) -/

/-- The arguments of one `play(...)` invocation. -/
structure PlayCall where
  start_pos : Option ℚ
  playlist_start_index : Option ℕ
  resume_specific_file : Option String
deriving DecidableEq, Repr

/-- The semantically relevant pieces of the constructed mpv command line:
the `--playlist-start` flag, the `--start` flag, and the seek target baked
into the generated one-shot Lua script (`--script=...`), when any. -/
structure LaunchSpec where
  playlistStartFlag : Option ℕ
  startFlag : Option ℚ
  scriptTarget : Option ℚ
deriving DecidableEq, Repr

/-- Python truthiness of `resume_specific_file` (line 64). -/
def truthyStr : Option String → Bool
  | none => false
  | some s => !(s == "")

/-- Python truthiness of `start_pos` (line 90): `None` and `0` are falsy. -/
def truthyPos : Option ℚ → Bool
  | none => false
  | some v => !(v == 0)

/-- Lines 57-95 of `play`: command construction.  In the script branch the
source evaluates `max(start_pos-5, 0)` (line 71); `start_pos` is never
`None` there at any call site, so `getD 0` only fills an unreachable case. -/
def buildCmd (c : PlayCall) (isDir : Bool) : LaunchSpec :=
  if truthyStr c.resume_specific_file && c.playlist_start_index.isSome && isDir then
    { playlistStartFlag := c.playlist_start_index
      startFlag := none
      scriptTarget := some (max (c.start_pos.getD 0 - 5) 0) }
  else
    { playlistStartFlag := c.playlist_start_index
      startFlag := if truthyPos c.start_pos then c.start_pos else none
      scriptTarget := none }

/-- One seek command issued by the Lua hook:
`mp.commandv("seek", target_time, "absolute")` (line 76). -/
structure Seek where
  target : ℚ
  absolute : Bool
deriving DecidableEq, Repr

/-- One `file-loaded` event handled by the generated Lua script
(lines 69-81): seek once, then the `sought` flag disarms the hook. -/
def hookStep (target : ℚ) (st : Bool × List Seek) (_ev : Unit) :
    Bool × List Seek :=
  if st.1 then st else (true, st.2 ++ [⟨target, true⟩])

/-- The seeks the hook has issued after a run of `file-loaded` events. -/
def runHook (target : ℚ) (events : List Unit) : List Seek :=
  (events.foldl (hookStep target) (false, [])).2

/-! ## Session orchestrator (the resume and new-selection handlers) -/

/-- Outcome of one resume action (lines 282-323).  `call` records the
arguments of the `play(...)` invocation, `none` when no launch happened;
`missing`, `reset` and `saved` record the messages surfaced to the user
(`st.error` line 284, `st.warning` line 303, `st.success`/`st.warning`
lines 320/323). -/
structure ResumeResult where
  store : Store
  call : Option PlayCall
  launch : Option LaunchSpec
  missing : Bool
  reset : Bool
  saved : Bool
deriving DecidableEq, Repr

/-- The resume handler, lines 282-323.  Inputs beyond the store and the
session entry are the filesystem and process facts the source reads:
`pathExists` is `os.path.exists(original_path)` (line 283), `isDir` is
`os.path.isdir` inside `play` (line 64), `listing` feeds `get_media_files`
(line 298), and `stdout`/`stderr` are the captured output of the mpv run. -/
def resumeSession (store : Store) (original_path : String) (sess : Session)
    (pathExists : Bool) (isDir : Bool) (listing : Option (List (String × Bool)))
    (stdout stderr : String) (now : String) : ResumeResult :=
  if !pathExists then
    { store := eraseKey store original_path, call := none, launch := none,
      missing := true, reset := false, saved := false }
  else
    let args :=
      if sess.is_folder then
        let media_files := get_media_files original_path listing
        if sess.last_played_file ∈ media_files then
          ((sess.last_played_position, some (media_files.indexOf sess.last_played_file),
            some sess.last_played_file), false)
        else
          (((0 : ℚ), some 0, (none : Option String)), true)
      else
        ((sess.last_played_position, (none : Option ℕ), (none : Option String)), false)
    let call : PlayCall :=
      { start_pos := some args.1.1
        playlist_start_index := args.1.2.1
        resume_specific_file := args.1.2.2 }
    match parsePlayOutput stdout stderr with
    | some info =>
      { store := updateSession store original_path info now, call := some call,
        launch := some (buildCmd call isDir),
        missing := false, reset := args.2, saved := true }
    | none =>
      { store := store, call := some call, launch := some (buildCmd call isDir),
        missing := false, reset := args.2, saved := false }

/-- Outcome of one new-selection play action (lines 367-390). -/
structure NewPlayResult where
  store : Store
  launched : Bool
  saved : Bool
deriving DecidableEq, Repr

/-- The "Play Selection" handler, lines 367-390: abort when a folder
selection scans empty, otherwise launch `play(path)` with default arguments
and on a successful parse upsert a fresh session under the selected path. -/
def playNewSelection (store : Store) (path : String) (is_folder : Bool)
    (listing : Option (List (String × Bool))) (stdout stderr : String)
    (now : String) : NewPlayResult :=
  if is_folder && (get_media_files path listing).isEmpty then
    { store := store, launched := false, saved := false }
  else
    match parsePlayOutput stdout stderr with
    | some info =>
      { store := upsert store path
          { path := path
            is_folder := is_folder
            last_played_file := info.path
            last_played_position := info.position
            last_played_timestamp := now }
        launched := true, saved := true }
    | none => { store := store, launched := true, saved := false }

/-! ## General helper lemmas -/

theorem getLast?_mem {α : Type _} {l : List α} {x : α}
    (h : l.getLast? = some x) : x ∈ l := by
  induction l with
  | nil => simp at h
  | cons a t ih =>
    cases t with
    | nil => simp at h; simp [h]
    | cons b t' =>
      rw [List.getLast?_cons_cons] at h
      exact List.mem_cons_of_mem a (ih h)

theorem getLast?_getD_cons {α : Type _} (c : α) (ft : List α) (a : α) :
    ((c :: ft).getLast?).getD a = (ft.getLast?).getD c := by
  cases hft : ft.getLast? with
  | none =>
    have he : ft = [] := List.getLast?_eq_none_iff.mp hft
    subst he; simp
  | some x =>
    have hcf : (c :: ft).getLast? = some x := by
      cases ft with
      | nil => simp at hft
      | cons d t => rw [List.getLast?_cons_cons]; exact hft
    rw [hcf]
    simp

theorem foldl_keep_last {α : Type _} (p : α → Bool) (l : List α) (a : α) :
    l.foldl (fun acc x => if p x then x else acc) a
      = ((l.filter p).getLast?).getD a := by
  induction l generalizing a with
  | nil => simp
  | cons c t ih =>
    simp only [List.foldl_cons, List.filter_cons]
    cases hc : p c with
    | true => simp only [hc, if_true]; rw [ih c, getLast?_getD_cons]
    | false => simp only [hc, Bool.false_eq_true, if_false]; exact ih a

/-! ## C9: session-store load behaviour -/

/-- C9 counterexample: the claim says load returns an empty mapping on
malformed content and never raises to the caller; but a store file whose
bytes fail text decoding — malformed content — makes `json.load`'s internal
read raise `UnicodeDecodeError`, which is not a `json.JSONDecodeError` and
so propagates: the caller gets an exception, not the empty mapping. -/
theorem c9_load_raises_counterexample :
    load_all_sessions (fun _ => JsonResult.decodeError) FileRead.undecodable
      = LoadResult.raisedUnicodeDecodeError ∧
    load_all_sessions (fun _ => JsonResult.decodeError) FileRead.undecodable
      ≠ LoadResult.mapping [] := by
  exact ⟨rfl, by decide⟩

/-- C9 amended: loading the session store returns an empty mapping when the
store file is missing and when its decoded text fails JSON parsing (the one
caught exception, `json.JSONDecodeError`); but an unreadable file raises
`OSError` and undecodable bytes raise `UnicodeDecodeError` to the caller,
and syntactically valid JSON that is not an object is returned as-is rather
than as an empty mapping. -/
theorem c9_load_error_paths :
    (∀ parse : String → JsonResult,
      load_all_sessions parse FileRead.missing = LoadResult.mapping []) ∧
    (∀ (parse : String → JsonResult) (content : String),
      parse content = JsonResult.decodeError →
      load_all_sessions parse (FileRead.content content) = LoadResult.mapping []) ∧
    (∀ parse : String → JsonResult,
      load_all_sessions parse FileRead.unreadable = LoadResult.raisedOSError) ∧
    (∀ parse : String → JsonResult,
      load_all_sessions parse FileRead.undecodable
        = LoadResult.raisedUnicodeDecodeError) ∧
    (∀ (parse : String → JsonResult) (content : String),
      parse content = JsonResult.nonObj →
      load_all_sessions parse (FileRead.content content) = LoadResult.nonMapping) ∧
    (∀ (parse : String → JsonResult) (content : String) (m : Store),
      parse content = JsonResult.obj m →
      load_all_sessions parse (FileRead.content content) = LoadResult.mapping m) := by
  refine ⟨fun parse => rfl, ?_, fun parse => rfl, fun parse => rfl, ?_, ?_⟩
  · intro parse content h
    simp [load_all_sessions, h]
  · intro parse content h
    simp [load_all_sessions, h]
  · intro parse content m h
    simp [load_all_sessions, h]

/-- Witness for C9's amended theorem: a concrete syntactically malformed
content is caught and yields the empty mapping. -/
theorem c9_load_error_paths_witness :
    load_all_sessions (fun _ => JsonResult.decodeError)
      (FileRead.content "not json") = LoadResult.mapping [] :=
  c9_load_error_paths.2.1 (fun _ => JsonResult.decodeError) "not json" rfl

/-! ## Store lookup helpers -/

/-- First-match association lookup, `store[k]` on the Python dict. -/
def lookupKey : Store → String → Option Session
  | [], _ => none
  | e :: t, k => if e.1 = k then some e.2 else lookupKey t k

theorem lookupKey_append (t₁ t₂ : Store) (k : String) :
    lookupKey (t₁ ++ t₂) k
      = match lookupKey t₁ k with
        | some x => some x
        | none => lookupKey t₂ k := by
  induction t₁ with
  | nil => simp [lookupKey]
  | cons e t ih =>
    by_cases he : e.1 = k
    · simp [lookupKey, he]
    · simp [lookupKey, he, ih]

theorem lookupKey_map_modify (t : Store) (key : String) (f : Session → Session)
    (k' : String) :
    lookupKey (t.map (fun e => if e.1 == key then (e.1, f e.2) else e)) k'
      = if k' = key then (lookupKey t key).map f else lookupKey t k' := by
  induction t with
  | nil => simp [lookupKey]
  | cons e t ih =>
    simp only [List.map_cons]
    by_cases he : e.1 = key
    · by_cases hk : k' = key
      · simp [lookupKey, he, hk, beq_iff_eq]
      · have hek : ¬ e.1 = k' := by rw [he]; exact fun hh => hk hh.symm
        have hkk : ¬ key = k' := fun hh => hk hh.symm
        simp only [beq_iff_eq] at ih
        simp [lookupKey, he, hek, hk, hkk, ih, beq_iff_eq]
    · by_cases hek : e.1 = k'
      · have hk : ¬ k' = key := fun hh => he (hek.trans hh)
        simp [lookupKey, he, hek, hk, beq_iff_eq]
      · simp only [beq_iff_eq] at ih
        simp [lookupKey, he, hek, ih, beq_iff_eq]

theorem lookupKey_map_replace (t : Store) (k : String) (v : Session)
    (k' : String) :
    lookupKey (t.map (fun e => if e.1 == k then (k, v) else e)) k'
      = if k' = k then (lookupKey t k).map (fun _ => v) else lookupKey t k' := by
  have : (fun e : String × Session => if e.1 == k then (k, v) else e)
      = fun e => if e.1 == k then (e.1, (fun _ => v) e.2) else e := by
    funext e
    by_cases he : e.1 = k <;> simp [he]
  rw [this]
  exact lookupKey_map_modify t k (fun _ => v) k'

theorem any_key_eq_isSome (t : Store) (k : String) :
    (t.any (fun e => e.1 == k)) = (lookupKey t k).isSome := by
  induction t with
  | nil => rfl
  | cons e t ih => by_cases he : e.1 = k <;> simp [lookupKey, he, ih]

theorem lookupKey_upsert (s : Store) (k : String) (v : Session) (k' : String) :
    lookupKey (upsert s k v) k' = if k' = k then some v else lookupKey s k' := by
  unfold upsert
  by_cases ha : (s.any (fun e => e.1 == k)) = true
  · rw [if_pos ha, lookupKey_map_replace]
    by_cases hk : k' = k
    · rw [any_key_eq_isSome] at ha
      cases hs : lookupKey s k with
      | none => rw [hs] at ha; simp at ha
      | some s₀ => simp [hk, hs]
    · simp [hk]
  · rw [if_neg ha, lookupKey_append]
    by_cases hk : k' = k
    · subst hk
      rw [any_key_eq_isSome] at ha
      cases hs : lookupKey s k' with
      | none => simp [lookupKey]
      | some s₀ => rw [hs] at ha; simp at ha
    · have hk2 : ¬ k = k' := fun hh => hk hh.symm
      cases hs : lookupKey s k' with
      | none => simp [lookupKey, hk, hk2]
      | some s₀ => simp [hk]

theorem lookupKey_updateSession (s : Store) (key : String) (info : ExitInfo)
    (now : String) (k' : String) :
    lookupKey (updateSession s key info now) k'
      = if k' = key then
          (lookupKey s key).map (fun s₀ =>
            { s₀ with
                last_played_file := info.path
                last_played_position := info.position
                last_played_timestamp := now })
        else lookupKey s k' := by
  have h := lookupKey_map_modify s key (fun s₀ =>
    { s₀ with
        last_played_file := info.path
        last_played_position := info.position
        last_played_timestamp := now }) k'
  exact h

/-! ## The executable string comparison agrees with the lexicographic order -/

theorem lexLe_iff : ∀ (as bs : List Char),
    lexLe as bs = true ↔ ¬ List.Lex (· < ·) bs as
  | [], _ => iff_of_true rfl (fun h => nomatch h)
  | _ :: _, [] => iff_of_false (by simp [lexLe]) (fun h => h List.Lex.nil)
  | a :: as, b :: bs => by
    rcases lt_trichotomy a b with h | h | h
    · refine iff_of_true (by simp [lexLe, h]) ?_
      intro hl
      cases hl with
      | cons h' => exact absurd h (lt_irrefl _)
      | rel h' => exact lt_asymm h h'
    · subst h
      have hrec := lexLe_iff as bs
      constructor
      · intro hle hl
        have hle' : lexLe as bs = true := by
          simpa [lexLe, lt_irrefl] using hle
        cases hl with
        | cons h' => exact hrec.mp hle' h'
        | rel h' => exact lt_irrefl a h'
      · intro hnl
        have hh : lexLe as bs = true :=
          hrec.mpr (fun hl => hnl (List.Lex.cons hl))
        simp [lexLe, lt_self_iff_false, hh]
    · refine iff_of_false (by simp [lexLe, lt_asymm h, ne_of_gt h]) ?_
      intro hnl
      exact hnl (List.Lex.rel h)

theorem pyLe_iff (a b : String) : pyLe a b = true ↔ a ≤ b := by
  rw [String.le_iff_toList_le, ← not_lt]
  exact lexLe_iff a.data b.data

/-! ## Media-scanner characterization (C8 helpers) -/

theorem head?_append_left {α : Type _} (l₁ l₂ : List α) (h : l₁ ≠ []) :
    (l₁ ++ l₂).head? = l₁.head? := by
  cases l₁ with
  | nil => exact absurd rfl h
  | cons a t => rfl

theorem mem_get_media_files_iff (folder : String)
    (entries : List (String × Bool)) (x : String) :
    x ∈ get_media_files folder (some entries)
      ↔ ∃ nm, ((nm, true) ∈ entries ∧ hasMediaExt nm = true)
          ∧ x = pyJoin folder nm := by
  constructor
  · intro hx
    rw [get_media_files, List.mem_insertionSort] at hx
    obtain ⟨e, he, hex⟩ := List.mem_map.mp hx
    have h2 := List.mem_filter.mp he
    have h3 := h2.2
    simp at h3
    refine ⟨e.1, ⟨?_, h3.2⟩, hex.symm⟩
    have h4 : (e.1, e.2) ∈ entries := h2.1
    rw [h3.1] at h4
    exact h4
  · rintro ⟨nm, ⟨hmem, hext⟩, hx⟩
    rw [get_media_files, List.mem_insertionSort]
    exact List.mem_map.mpr ⟨(nm, true), List.mem_filter.mpr ⟨hmem, by simp [hext]⟩,
      hx.symm⟩

theorem get_media_files_sorted (folder : String)
    (entries : List (String × Bool)) :
    List.Sorted (· ≤ ·) (get_media_files folder (some entries)) := by
  haveI hto : IsTotal String (fun a b => pyLe a b = true) :=
    ⟨fun a b => by
      rcases le_total a b with h | h
      · exact Or.inl ((pyLe_iff a b).mpr h)
      · exact Or.inr ((pyLe_iff b a).mpr h)⟩
  haveI htr : IsTrans String (fun a b => pyLe a b = true) :=
    ⟨fun a b c hab hbc =>
      (pyLe_iff a c).mpr (le_trans ((pyLe_iff a b).mp hab) ((pyLe_iff b c).mp hbc))⟩
  rw [get_media_files]
  exact (List.sorted_insertionSort _ _).imp (fun {a b} h => (pyLe_iff a b).mp h)

theorem pyJoin_head_abs (folder nm : String)
    (h : folder.data.head? = some '/') :
    (pyJoin folder nm).data.head? = some '/' := by
  unfold pyJoin
  by_cases h1 : nm.data.head? = some '/'
  · rw [if_pos h1]; exact h1
  · rw [if_neg h1]
    have hne : folder.data ≠ [] := by
      intro hf
      rw [hf] at h
      exact (by simp at h)
    by_cases h2 : folder = "" ∨ folder.data.getLast? = some '/'
    · rw [if_pos h2]
      show ((folder ++ nm).data).head? = some '/'
      rw [String.data_append, head?_append_left _ _ hne]
      exact h
    · rw [if_neg h2]
      show ((folder ++ "/" ++ nm).data).head? = some '/'
      have hd : (folder ++ "/" ++ nm).data = folder.data ++ ("/".data ++ nm.data) := by
        simp [String.data_append, List.append_assoc]
      rw [hd, head?_append_left _ _ hne]
      exact h

/-! ## Character classification helpers -/

theorem isDigit_ne (c : Char) (h : c.isDigit = true) :
    ¬ c = ':' ∧ ¬ c = '#' ∧ ¬ c = '\n' ∧ ¬ c = '\r' ∧ c.isWhitespace = false := by
  refine ⟨?_, ?_, ?_, ?_, ?_⟩
  · intro hh; rw [hh] at h; exact absurd h (by decide)
  · intro hh; rw [hh] at h; exact absurd h (by decide)
  · intro hh; rw [hh] at h; exact absurd h (by decide)
  · intro hh; rw [hh] at h; exact absurd h (by decide)
  · cases hw : c.isWhitespace with
    | false => rfl
    | true =>
      exfalso
      have h4 : c = ' ' ∨ c = '\t' ∨ c = '\r' ∨ c = '\n' := by
        unfold Char.isWhitespace at hw
        simp at hw
        tauto
      rcases h4 with hh | hh | hh | hh <;> rw [hh] at h <;> exact absurd h (by decide)

/-! ## Parse-pipeline evaluation lemmas -/

theorem pyStrip_eq_self (l : List Char)
    (h1 : ∀ c, l.head? = some c → c.isWhitespace = false)
    (h2 : ∀ c, l.getLast? = some c → c.isWhitespace = false) :
    pyStrip l = l := by
  cases l with
  | nil => rfl
  | cons a t =>
    unfold pyStrip
    rw [List.dropWhile_cons_of_neg (by simp [h1 a rfl])]
    cases hr : (a :: t).reverse with
    | nil => simp at hr
    | cons b s =>
      have hb : (a :: t).getLast? = some b := by
        rw [← List.head?_reverse, hr]; rfl
      rw [List.dropWhile_cons_of_neg (by simp [h2 b hb]), ← hr,
        List.reverse_reverse]

theorem pyReplaceCR_eq_self (l : List Char) (h : '\r' ∉ l) : pyReplaceCR l = l := by
  induction l with
  | nil => rfl
  | cons c t ih =>
    have hc : ¬ c = '\r' := fun hh => h (hh ▸ List.mem_cons_self c t)
    have ht : '\r' ∉ t := fun hh => h (List.mem_cons_of_mem c hh)
    simp only [pyReplaceCR, List.map_cons, if_neg hc]
    have := ih ht
    unfold pyReplaceCR at this
    rw [this]

theorem splitChar_no_sep (sep : Char) (l : List Char) (h : sep ∉ l) :
    splitChar sep l = [l] := by
  induction l with
  | nil => rfl
  | cons c t ih =>
    have hc : ¬ c = sep := fun hh => h (hh ▸ List.mem_cons_self c t)
    have ht : sep ∉ t := fun hh => h (List.mem_cons_of_mem c hh)
    rw [splitChar, if_neg hc, ih ht]

theorem isPrefixOf_append (l r : List Char) : l.isPrefixOf (l ++ r) = true := by
  induction l with
  | nil => simp [List.isPrefixOf]
  | cons c t ih => simp [List.isPrefixOf, ih]

theorem isMarkerLine_head (l : List Char) (h : isMarkerLine l = true) :
    l.head? = some '[' := by
  cases l with
  | nil => exact absurd h (by decide)
  | cons c t =>
    unfold isMarkerLine markerChars at h
    simp [List.isPrefixOf] at h
    rw [h.1]
    rfl

theorem parsePlayOutput_one_marker_line (l : List Char) (er : String)
    (hm : isMarkerLine l = true)
    (hcr : '\r' ∉ l) (hnl : '\n' ∉ l)
    (hlast : ∀ c, l.getLast? = some c → c.isWhitespace = false) :
    parsePlayOutput ⟨l⟩ er = parseStatusLine l := by
  have hstrip : pyStrip l = l := by
    refine pyStrip_eq_self l ?_ hlast
    intro c hc
    rw [isMarkerLine_head l hm] at hc
    injection hc with hc1
    rw [← hc1]
    rfl
  have hne : l ≠ [] := by
    intro hl
    rw [hl] at hm
    exact absurd hm (by decide)
  show (if lastStatusLine (splitChar '\n' (pyReplaceCR (pyStrip l))) = [] then none
      else parseStatusLine (lastStatusLine (splitChar '\n' (pyReplaceCR (pyStrip l)))))
    = parseStatusLine l
  rw [hstrip, pyReplaceCR_eq_self l hcr, splitChar_no_sep '\n' l hnl]
  have hlast2 : lastStatusLine [l] = l := by simp [lastStatusLine, hm]
  rw [hlast2, if_neg hne]

/-! ## Regex-scan evaluation lemmas -/

theorem matchAt_cons_ne (c : Char) (rest : List Char) (h : ¬ c = 'P') :
    matchAt (c :: rest) = none := by
  unfold matchAt
  rw [if_neg]
  intro hc
  apply h
  have h2 : ((c :: rest).take 5).head? = some 'P' := by rw [hc]; rfl
  have h3 : ((c :: rest).take 5).head? = some c := rfl
  rw [h3] at h2
  injection h2

theorem reSearch_cons_of_ne (c : Char) (rest : List Char) (h : ¬ c = 'P') :
    reSearch (c :: rest) = reSearch rest := by
  rw [reSearch, matchAt_cons_ne c rest h]

theorem posHere_cons_ne (c : Char) (l : List Char) (h : ¬ c = '#') :
    posHere (c :: l) = none := by
  unfold posHere
  rw [if_neg]
  intro hc
  apply h
  have h2 : ((c :: l).take 5).head? = some '#' := by rw [hc]; rfl
  have h3 : ((c :: l).take 5).head? = some c := rfl
  rw [h3] at h2
  injection h2

theorem posHere_posTag (t : List Char) :
    posHere ('#' :: 'P' :: 'O' :: 'S' :: ':' :: t) = matchTime t := by
  unfold posHere
  rw [show List.take 5 ('#' :: 'P' :: 'O' :: 'S' :: ':' :: t) = posTag from rfl,
    if_pos rfl]
  rfl

theorem searchPos_path (p t tok : List Char)
    (hp : '#' ∉ p) (hn : '\n' ∉ p) (ht : matchTime t = some tok) :
    searchPos (p ++ (posTag ++ t)) = some (p, tok) := by
  induction p with
  | nil =>
    show searchPos ('#' :: 'P' :: 'O' :: 'S' :: ':' :: t) = some ([], tok)
    rw [searchPos, posHere_posTag, ht]
  | cons c p' ih =>
    have hc : ¬ c = '#' := fun hh => hp (hh ▸ List.mem_cons_self c p')
    have hcn : ¬ c = '\n' := fun hh => hn (hh ▸ List.mem_cons_self c p')
    have hp' : '#' ∉ p' := fun hh => hp (List.mem_cons_of_mem c hh)
    have hn' : '\n' ∉ p' := fun hh => hn (List.mem_cons_of_mem c hh)
    show searchPos (c :: (p' ++ (posTag ++ t))) = some (c :: p', tok)
    rw [searchPos, posHere_cons_ne c _ hc]
    rw [if_neg hcn, ih hp' hn']

theorem matchAt_pathTag (X : List Char) :
    matchAt ('P' :: 'A' :: 'T' :: 'H' :: ':' :: X) = searchPos X := by
  unfold matchAt
  rw [show List.take 5 ('P' :: 'A' :: 'T' :: 'H' :: ':' :: X) = pathTag from rfl,
    if_pos rfl]
  rfl

theorem reSearch_mkLine_success (p t : List Char) (res : List Char × List Char)
    (h : searchPos (p ++ (posTag ++ t)) = some res) :
    reSearch (mkLine p t) = some res := by
  show reSearch ('[' :: 'm' :: 'p' :: 'v' :: 'R' :: 'e' :: 'c' :: 'a' :: 'l' :: 'l'
      :: ']' :: 'P' :: 'A' :: 'T' :: 'H' :: ':' :: (p ++ (posTag ++ t))) = some res
  rw [reSearch_cons_of_ne _ _ (by decide), reSearch_cons_of_ne _ _ (by decide),
    reSearch_cons_of_ne _ _ (by decide), reSearch_cons_of_ne _ _ (by decide),
    reSearch_cons_of_ne _ _ (by decide), reSearch_cons_of_ne _ _ (by decide),
    reSearch_cons_of_ne _ _ (by decide), reSearch_cons_of_ne _ _ (by decide),
    reSearch_cons_of_ne _ _ (by decide), reSearch_cons_of_ne _ _ (by decide),
    reSearch_cons_of_ne _ _ (by decide)]
  rw [reSearch, matchAt_pathTag, h]

/-! ## Time-token evaluation lemmas -/

theorem matchTime_7 (a b c d e : Char) (ha : a.isDigit = true)
    (hb : b.isDigit = true) (hc : c.isDigit = true) (hd : d.isDigit = true)
    (he : e.isDigit = true) :
    matchTime [a, ':', b, c, ':', d, e] = some [a, ':', b, c, ':', d, e] := by
  unfold matchTime
  have h2 : matchTime2 [a, ':', b, c, ':', d, e] = none := rfl
  rw [h2]
  unfold matchTime1
  simp [ha, hb, hc, hd, he]

theorem matchTime_8 (a b c d e f : Char) (ha : a.isDigit = true)
    (hb : b.isDigit = true) (hc : c.isDigit = true) (hd : d.isDigit = true)
    (he : e.isDigit = true) (hf : f.isDigit = true) :
    matchTime [a, b, ':', c, d, ':', e, f] = some [a, b, ':', c, d, ':', e, f] := by
  unfold matchTime matchTime2
  simp [ha, hb, hc, hd, he, hf]

/-! ## Time-token parsing lemmas -/

theorem getLast?_append_right {α : Type _} (l₁ l₂ : List α) (h : l₂ ≠ []) :
    (l₁ ++ l₂).getLast? = l₂.getLast? := by
  rw [← List.head?_reverse, ← List.head?_reverse, List.reverse_append,
    head?_append_left]
  intro hr
  exact h (by simpa using congrArg List.reverse hr)

theorem splitColon_7 (a b c d e : Char) (ha : a.isDigit = true)
    (hb : b.isDigit = true) (hc : c.isDigit = true) (hd : d.isDigit = true)
    (he : e.isDigit = true) :
    splitChar ':' [a, ':', b, c, ':', d, e] = [[a], [b, c], [d, e]] := by
  have na := (isDigit_ne a ha).1
  have nb := (isDigit_ne b hb).1
  have nc := (isDigit_ne c hc).1
  have nd := (isDigit_ne d hd).1
  have ne' := (isDigit_ne e he).1
  simp [splitChar, na, nb, nc, nd, ne']

theorem splitColon_8 (a b c d e f : Char) (ha : a.isDigit = true)
    (hb : b.isDigit = true) (hc : c.isDigit = true) (hd : d.isDigit = true)
    (he : e.isDigit = true) (hf : f.isDigit = true) :
    splitChar ':' [a, b, ':', c, d, ':', e, f] = [[a, b], [c, d], [e, f]] := by
  have na := (isDigit_ne a ha).1
  have nb := (isDigit_ne b hb).1
  have nc := (isDigit_ne c hc).1
  have nd := (isDigit_ne d hd).1
  have ne' := (isDigit_ne e he).1
  have nf := (isDigit_ne f hf).1
  simp [splitChar, na, nb, nc, nd, ne', nf]

theorem parseTimeStr_7 (a b c d e : Char) (ha : a.isDigit = true)
    (hb : b.isDigit = true) (hc : c.isDigit = true) (hd : d.isDigit = true)
    (he : e.isDigit = true) :
    parseTimeStr [a, ':', b, c, ':', d, e]
      = some ((a.toNat - 48) * 3600
          + ((b.toNat - 48) * 10 + (c.toNat - 48)) * 60
          + ((d.toNat - 48) * 10 + (e.toNat - 48))) := by
  unfold parseTimeStr
  rw [splitColon_7 a b c d e ha hb hc hd he]
  simp [parseNat, digitsToNat, ha, hb, hc, hd, he]

theorem parseTimeStr_8 (a b c d e f : Char) (ha : a.isDigit = true)
    (hb : b.isDigit = true) (hc : c.isDigit = true) (hd : d.isDigit = true)
    (he : e.isDigit = true) (hf : f.isDigit = true) :
    parseTimeStr [a, b, ':', c, d, ':', e, f]
      = some (((a.toNat - 48) * 10 + (b.toNat - 48)) * 3600
          + ((c.toNat - 48) * 10 + (d.toNat - 48)) * 60
          + ((e.toNat - 48) * 10 + (f.toNat - 48))) := by
  unfold parseTimeStr
  rw [splitColon_8 a b c d e f ha hb hc hd he hf]
  simp [parseNat, digitsToNat, ha, hb, hc, hd, he, hf]

theorem tokenShape_facts {t : List Char} {secs : ℕ} (h : tokenShape t secs) :
    matchTime t = some t ∧ parseTimeStr t = some secs ∧
    (∀ c ∈ t, c.isDigit = true ∨ c = ':') ∧ t ≠ [] ∧
    (∀ c, t.getLast? = some c → c.isDigit = true) := by
  rcases h with ⟨a, b, c, d, e, ⟨ha, hb, hc, hd, he⟩, ht, hs⟩ |
    ⟨a, b, c, d, e, f, ⟨ha, hb, hc, hd, he, hf⟩, ht, hs⟩
  · subst ht; subst hs
    refine ⟨matchTime_7 a b c d e ha hb hc hd he,
      parseTimeStr_7 a b c d e ha hb hc hd he, ?_, by simp, ?_⟩
    · intro x hx
      simp at hx
      rcases hx with h | h | h | h | h | h | h <;> subst h <;>
        simp [ha, hb, hc, hd, he]
    · intro x hx
      simp at hx
      subst hx
      exact he
  · subst ht; subst hs
    refine ⟨matchTime_8 a b c d e f ha hb hc hd he hf,
      parseTimeStr_8 a b c d e f ha hb hc hd he hf, ?_, by simp, ?_⟩
    · intro x hx
      simp at hx
      rcases hx with h | h | h | h | h | h | h | h <;> subst h <;>
        simp [ha, hb, hc, hd, he, hf]
    · intro x hx
      simp at hx
      subst hx
      exact hf

/-! ## Parser threshold helpers -/

theorem parseStatusLine_pos (l : List Char) (info : ExitInfo)
    (h : parseStatusLine l = some info) : 2 < info.position := by
  unfold parseStatusLine at h
  cases hr : reSearch l with
  | none => rw [hr] at h; simp at h
  | some r =>
    obtain ⟨p, tok⟩ := r
    rw [hr] at h
    dsimp only at h
    cases ht : parseTimeStr tok with
    | none => rw [ht] at h; simp at h
    | some secs =>
      rw [ht] at h
      dsimp only at h
      by_cases hs : 2 < (secs : ℚ)
      · rw [if_pos hs] at h
        injection h with h1
        rw [← h1]
        exact hs
      · rw [if_neg hs] at h
        simp at h

theorem parsePlayOutput_pos (out err : String) (info : ExitInfo)
    (h : parsePlayOutput out err = some info) : 2 < info.position := by
  unfold parsePlayOutput at h
  by_cases hl : lastStatusLine (splitChar '\n' (pyReplaceCR (pyStrip out.data))) = []
  · rw [if_pos hl] at h; simp at h
  · rw [if_neg hl] at h
    exact parseStatusLine_pos _ info h

theorem resumeSession_store_none (store : Store) (p : String) (sess : Session)
    (isDir : Bool) (listing : Option (List (String × Bool))) (out err now : String)
    (hp : parsePlayOutput out err = none) :
    (resumeSession store p sess true isDir listing out err now).store = store := by
  simp [resumeSession, hp]

theorem resumeSession_store_some (store : Store) (p : String) (sess : Session)
    (isDir : Bool) (listing : Option (List (String × Bool))) (out err now : String)
    (info : ExitInfo) (hp : parsePlayOutput out err = some info) :
    (resumeSession store p sess true isDir listing out err now).store
      = updateSession store p info now := by
  simp [resumeSession, hp]

/-! ## C6: only the last marker line counts -/

/-- C6: whenever the processed lines of the captured output contain at least
one marker-prefixed line, the whole parse equals the parse of the LAST such
line — every earlier marker line is ignored. -/
theorem c6_last_marker_line_wins (stdout stderr : String) (lm : List Char)
    (h : ((splitChar '\n' (pyReplaceCR (pyStrip stdout.data))).filter
        isMarkerLine).getLast? = some lm) :
    parsePlayOutput stdout stderr = parseStatusLine lm := by
  have hfold : lastStatusLine (splitChar '\n' (pyReplaceCR (pyStrip stdout.data)))
      = lm := by
    unfold lastStatusLine
    rw [foldl_keep_last, h]
    rfl
  have hne : lm ≠ [] := by
    have hmem := getLast?_mem h
    have hmark : isMarkerLine lm = true := (List.mem_filter.mp hmem).2
    intro hl
    rw [hl] at hmark
    exact absurd hmark (by decide)
  unfold parsePlayOutput
  rw [hfold, if_neg hne]

/-- Witness for C6: with two marker lines on stdout, the parse returns the
second line's position, not the first one's. -/
theorem c6_last_marker_line_wins_witness :
    parsePlayOutput
        "[mpvRecall]PATH:/a.mp4#POS:00:00:10\n[mpvRecall]PATH:/b.mp4#POS:00:20:00"
        ""
      = parseStatusLine "[mpvRecall]PATH:/b.mp4#POS:00:20:00".data ∧
    parseStatusLine "[mpvRecall]PATH:/b.mp4#POS:00:20:00".data
      = some ⟨"/b.mp4", 1200⟩ :=
  ⟨c6_last_marker_line_wins
      "[mpvRecall]PATH:/a.mp4#POS:00:00:10\n[mpvRecall]PATH:/b.mp4#POS:00:20:00"
      "" "[mpvRecall]PATH:/b.mp4#POS:00:20:00".data (by decide),
    by decide⟩

/-! ## C3: threshold at 2 seconds and exact H:MM:SS conversion -/

/-- C3: for a captured output whose (single, hence last) marker line carries
a time token `H:MM:SS` with a 1-2 digit hour, the parse returns `none`
exactly when `h*3600+m*60+s ≤ 2`, and otherwise returns precisely that many
seconds together with the path.  The path-span hypotheses keep the
constructed line a single line whose path part ends at the real `#POS:`
marker. -/
theorem c3_threshold_and_exact_conversion
    (p t : List Char) (er : String) (secs : ℕ)
    (hp1 : '#' ∉ p) (hp2 : '\r' ∉ p) (hp3 : '\n' ∉ p)
    (ht : tokenShape t secs) :
    (secs ≤ 2 → parsePlayOutput ⟨mkLine p t⟩ er = none) ∧
    (2 < secs → parsePlayOutput ⟨mkLine p t⟩ er = some ⟨⟨p⟩, (secs : ℚ)⟩) := by
  obtain ⟨hmt, hpt, hcls, htne, htlast⟩ := tokenShape_facts ht
  have hchar : ∀ x : Char, x ∈ mkLine p t →
      x ∈ p ∨ x ∈ t ∨ x ∈ markerChars ∨ x ∈ pathTag ∨ x ∈ posTag := by
    intro x hx
    simp [mkLine, List.mem_append] at hx
    tauto
  have hcr : '\r' ∉ mkLine p t := by
    intro hx
    rcases hchar '\r' hx with h | h | h | h | h
    · exact hp2 h
    · rcases hcls '\r' h with hd | hcol
      · exact absurd hd (by decide)
      · exact absurd hcol (by decide)
    · exact absurd h (by decide)
    · exact absurd h (by decide)
    · exact absurd h (by decide)
  have hnl : '\n' ∉ mkLine p t := by
    intro hx
    rcases hchar '\n' hx with h | h | h | h | h
    · exact hp3 h
    · rcases hcls '\n' h with hd | hcol
      · exact absurd hd (by decide)
      · exact absurd hcol (by decide)
    · exact absurd h (by decide)
    · exact absurd h (by decide)
    · exact absurd h (by decide)
  have hmk : isMarkerLine (mkLine p t) = true := isPrefixOf_append markerChars _
  have hlastl : ∀ c, (mkLine p t).getLast? = some c → c.isWhitespace = false := by
    intro c hcl
    have h4 : (posTag ++ t) ≠ [] := by simp [posTag]
    have h3 : (p ++ (posTag ++ t)) ≠ [] := fun hh => h4 (List.append_eq_nil.mp hh).2
    have h2 : (pathTag ++ (p ++ (posTag ++ t))) ≠ [] := by simp [pathTag]
    have hml : (mkLine p t).getLast? = t.getLast? := by
      unfold mkLine
      rw [getLast?_append_right _ _ h2, getLast?_append_right _ _ h3,
        getLast?_append_right _ _ h4, getLast?_append_right _ _ htne]
    rw [hml] at hcl
    exact (isDigit_ne c (htlast c hcl)).2.2.2.2
  have hline := parsePlayOutput_one_marker_line (mkLine p t) er hmk hcr hnl hlastl
  have hsearch : reSearch (mkLine p t) = some (p, t) :=
    reSearch_mkLine_success p t (p, t) (searchPos_path p t t hp1 hp3 hmt)
  have hps : parseStatusLine (mkLine p t)
      = if 2 < (secs : ℚ) then some ⟨⟨p⟩, (secs : ℚ)⟩ else none := by
    unfold parseStatusLine
    rw [hsearch]
    dsimp only
    rw [hpt]
  constructor
  · intro hle
    rw [hline, hps, if_neg (not_lt.mpr (by exact_mod_cast hle))]
  · intro hgt
    rw [hline, hps, if_pos (by exact_mod_cast hgt)]

/-- Witness for C3: `01:02:03` on a marker line parses to exactly 3723
seconds (and is above the threshold). -/
theorem c3_threshold_and_exact_conversion_witness :
    parsePlayOutput ⟨mkLine "/media/a.mp4".data "01:02:03".data⟩ ""
      = some ⟨"/media/a.mp4", ((3723 : ℕ) : ℚ)⟩ :=
  (c3_threshold_and_exact_conversion "/media/a.mp4".data "01:02:03".data "" 3723
    (by decide) (by decide) (by decide)
    (Or.inr ⟨'0', '1', '0', '2', '0', '3', by decide, by decide, by decide⟩)).2
    (by norm_num)

/-! ## C10: the lazy path group truncates at an embedded marker -/

theorem searchPos_minimal : ∀ (cs p tok : List Char),
    searchPos cs = some (p, tok) →
    ∃ r, cs = p ++ r ∧ posHere r = some tok ∧
      ∀ q r', cs = q ++ r' → q.length < p.length → posHere r' = none := by
  intro cs
  induction cs with
  | nil => intro p tok h; simp [searchPos] at h
  | cons c rest ih =>
    intro p tok h
    rw [searchPos] at h
    cases hph : posHere (c :: rest) with
    | some tok0 =>
      rw [hph] at h
      dsimp only at h
      injection h with h1
      rw [Prod.mk.injEq] at h1
      obtain ⟨hp0, ht0⟩ := h1
      subst hp0
      subst ht0
      refine ⟨c :: rest, rfl, hph, ?_⟩
      intro q r' _ hql
      simp at hql
    | none =>
      rw [hph] at h
      dsimp only at h
      by_cases hcn : c = '\n'
      · rw [if_pos hcn] at h
        exact absurd h (by simp)
      · rw [if_neg hcn] at h
        cases hs : searchPos rest with
        | none =>
          rw [hs] at h
          dsimp only at h
          exact absurd h (by simp)
        | some pr =>
          obtain ⟨p', tok'⟩ := pr
          rw [hs] at h
          dsimp only at h
          injection h with h1
          rw [Prod.mk.injEq] at h1
          obtain ⟨hp0, ht0⟩ := h1
          subst hp0
          subst ht0
          obtain ⟨r, hr1, hr2, hmin⟩ := ih p' tok' hs
          refine ⟨r, by simp [hr1], hr2, ?_⟩
          intro q r' hqr hql
          cases q with
          | nil =>
            simp at hqr
            rw [← hqr]
            exact hph
          | cons q0 q' =>
            rw [List.cons_append] at hqr
            injection hqr with hq0 hrest
            have hql' : q'.length < p'.length := by simpa using hql
            exact hmin q' r' hrest hql'

/-- C10: the path group is lazy — the span the parser returns is the
shortest prefix after `PATH:` that is followed by `#POS:` and a valid time
token (first conjunct); consequently a real path that itself contains
`#POS:` followed by a time-shaped token is returned truncated: on the
marker line for the file `/a#POS:01:00:00x` at position `00:00:10`, the
parser reports path `/a` (a strict prefix of the real path) and position
3600 s taken from the embedded token. -/
theorem c10_lazy_path_truncation :
    (∀ cs p tok : List Char, searchPos cs = some (p, tok) →
      ∃ r, cs = p ++ r ∧ posHere r = some tok ∧
        ∀ q r', cs = q ++ r' → q.length < p.length → posHere r' = none) ∧
    parsePlayOutput ⟨mkLine "/a#POS:01:00:00x".data "00:00:10".data⟩ ""
      = some ⟨"/a", 3600⟩ ∧
    ("/a" : String).data.isPrefixOf ("/a#POS:01:00:00x" : String).data = true ∧
    ("/a" : String) ≠ "/a#POS:01:00:00x" :=
  ⟨searchPos_minimal, by decide, by decide, by decide⟩

/-- Witness for C10's first conjunct at a concrete scan. -/
theorem c10_lazy_path_truncation_witness :
    ∃ r, ("xy#POS:0:00:05" : String).data = ("xy" : String).data ++ r ∧
      posHere r = some ("0:00:05" : String).data ∧
      ∀ q r', ("xy#POS:0:00:05" : String).data = q ++ r' →
        q.length < ("xy" : String).data.length → posHere r' = none :=
  c10_lazy_path_truncation.1 ("xy#POS:0:00:05" : String).data
    ("xy" : String).data ("0:00:05" : String).data (by decide)

/-! ## C8: the media scanner's contract -/

/-- C8: the scan of a folder returns exactly the regular files directly in
it whose names end case-insensitively in one of the fixed media extensions
(`hasMediaExt`), joined onto the folder (absolute whenever the folder is
absolute), sorted lexicographically ascending; and an enumeration error
(`listing = none`) yields the empty sequence instead of an exception. -/
theorem c8_media_scanner_contract :
    (∀ folder : String, get_media_files folder none = []) ∧
    (∀ (folder : String) (entries : List (String × Bool)),
      List.Sorted (· ≤ ·) (get_media_files folder (some entries))) ∧
    (∀ (folder : String) (entries : List (String × Bool)) (x : String),
      x ∈ get_media_files folder (some entries)
        ↔ ∃ nm, ((nm, true) ∈ entries ∧ hasMediaExt nm = true)
            ∧ x = pyJoin folder nm) ∧
    (∀ (folder : String) (listing : Option (List (String × Bool))) (x : String),
      folder.data.head? = some '/' →
      x ∈ get_media_files folder listing → x.data.head? = some '/') := by
  refine ⟨fun folder => rfl, get_media_files_sorted, mem_get_media_files_iff, ?_⟩
  intro folder listing x habs hx
  cases listing with
  | none => simp [get_media_files] at hx
  | some entries =>
    obtain ⟨nm, _, hx2⟩ := (mem_get_media_files_iff folder entries x).mp hx
    rw [hx2]
    exact pyJoin_head_abs folder nm habs

/-- Witness for C8's absolute-path conjunct at a concrete folder scan. -/
theorem c8_media_scanner_contract_witness :
    ("/m/a.mp4" : String).data.head? = some '/' :=
  c8_media_scanner_contract.2.2.2 "/m"
    (some [("b.mp4", true), ("a.mp4", true), ("c.txt", true), ("d.mp4", false)])
    "/m/a.mp4" (by decide) (by decide)

/-! ## C2: the 2-second significance threshold protects the store -/

/-- C2: a playback run writes `last_played_position` only when the parsed
exit position is strictly greater than 2 seconds.  Concretely: (1) any
parsed exit status carries a position strictly above 2; (2,3) when the
parse yields nothing, neither the resume flow (with the target path
present, so a launch happened) nor the new-selection flow changes the
store at all; (4,5) after either flow, every stored position either is the
untouched prior value of the same key or is a freshly parsed value
strictly above 2. -/
theorem c2_threshold_guards_store :
    (∀ out err info, parsePlayOutput out err = some info → 2 < info.position) ∧
    (∀ (store : Store) (p : String) (sess : Session) (isDir : Bool)
        (listing : Option (List (String × Bool))) (out err now : String),
      parsePlayOutput out err = none →
      (resumeSession store p sess true isDir listing out err now).store = store) ∧
    (∀ (store : Store) (p : String) (isf : Bool)
        (listing : Option (List (String × Bool))) (out err now : String),
      parsePlayOutput out err = none →
      (playNewSelection store p isf listing out err now).store = store) ∧
    (∀ (store : Store) (p : String) (sess : Session) (isDir : Bool)
        (listing : Option (List (String × Bool))) (out err now : String)
        (k : String) (s' : Session),
      lookupKey (resumeSession store p sess true isDir listing out err now).store k
        = some s' →
      (∃ s₀, lookupKey store k = some s₀ ∧
        s'.last_played_position = s₀.last_played_position) ∨
      2 < s'.last_played_position) ∧
    (∀ (store : Store) (p : String) (isf : Bool)
        (listing : Option (List (String × Bool))) (out err now : String)
        (k : String) (s' : Session),
      lookupKey (playNewSelection store p isf listing out err now).store k
        = some s' →
      (∃ s₀, lookupKey store k = some s₀ ∧
        s'.last_played_position = s₀.last_played_position) ∨
      2 < s'.last_played_position) := by
  refine ⟨parsePlayOutput_pos, ?_, ?_, ?_, ?_⟩
  · intro store p sess isDir listing out err now hp
    exact resumeSession_store_none store p sess isDir listing out err now hp
  · intro store p isf listing out err now hp
    cases hc : (isf && (get_media_files p listing).isEmpty) <;>
      simp [playNewSelection, hc, hp]
  · intro store p sess isDir listing out err now k s' h
    cases hp : parsePlayOutput out err with
    | none =>
      rw [resumeSession_store_none store p sess isDir listing out err now hp] at h
      exact Or.inl ⟨s', h, rfl⟩
    | some info =>
      rw [resumeSession_store_some store p sess isDir listing out err now info hp,
        lookupKey_updateSession] at h
      by_cases hk : k = p
      · rw [if_pos hk] at h
        cases hs : lookupKey store p with
        | none => rw [hs] at h; simp at h
        | some s₀ =>
          rw [hs] at h
          injection h with h1
          right
          rw [← h1]
          exact parsePlayOutput_pos out err info hp
      · rw [if_neg hk] at h
        exact Or.inl ⟨s', h, rfl⟩
  · intro store p isf listing out err now k s' h
    by_cases hc : (isf && (get_media_files p listing).isEmpty) = true
    · rw [show (playNewSelection store p isf listing out err now).store = store by
        simp [playNewSelection, hc]] at h
      exact Or.inl ⟨s', h, rfl⟩
    · cases hp : parsePlayOutput out err with
      | none =>
        rw [show (playNewSelection store p isf listing out err now).store = store by
          simp [playNewSelection, hc, hp]] at h
        exact Or.inl ⟨s', h, rfl⟩
      | some info =>
        rw [show (playNewSelection store p isf listing out err now).store
            = upsert store p
              { path := p, is_folder := isf, last_played_file := info.path,
                last_played_position := info.position,
                last_played_timestamp := now } by
          simp [playNewSelection, hc, hp]] at h
        rw [lookupKey_upsert] at h
        by_cases hk : k = p
        · rw [if_pos hk] at h
          injection h with h1
          right
          rw [← h1]
          exact parsePlayOutput_pos out err info hp
        · rw [if_neg hk] at h
          exact Or.inl ⟨s', h, rfl⟩

/-- Witness for C2: a run whose output carries no marker line leaves a
concrete store untouched, via the second conjunct. -/
theorem c2_threshold_guards_store_witness :
    (resumeSession [("/f.mp4", ⟨"/f.mp4", false, "/f.mp4", 50, "t"⟩)] "/f.mp4"
        ⟨"/f.mp4", false, "/f.mp4", 50, "t"⟩ true false none "mpv exited" "" "t2").store
      = [("/f.mp4", ⟨"/f.mp4", false, "/f.mp4", 50, "t"⟩)] :=
  c2_threshold_guards_store.2.1 [("/f.mp4", ⟨"/f.mp4", false, "/f.mp4", 50, "t"⟩)]
    "/f.mp4" ⟨"/f.mp4", false, "/f.mp4", 50, "t"⟩ false none "mpv exited" "" "t2"
    (by decide)

/-! ## C4: resume of a session whose original path vanished -/

/-- C4 counterexample: the claim says deletion of the stale entry is a
caller decision, not performed automatically as part of the failed resume;
but on a concrete failed resume the entry is already gone from the store
the orchestrator persists. -/
theorem c4_auto_delete_counterexample :
    (resumeSession [("/gone", ⟨"/gone", false, "/gone", 100, "t"⟩)] "/gone"
        ⟨"/gone", false, "/gone", 100, "t"⟩ false true none "" "" "t2").missing
        = true ∧
    (resumeSession [("/gone", ⟨"/gone", false, "/gone", 100, "t"⟩)] "/gone"
        ⟨"/gone", false, "/gone", 100, "t"⟩ false true none "" "" "t2").store.lookup
        "/gone" = none := by
  constructor <;> rfl

/-- C4 amended: when the resume target's `original_path` no longer exists,
the handler surfaces the missing failure, launches nothing, and itself
deletes the stale entry from the store (and persists it) — the deletion is
not left to a separate caller decision. -/
theorem c4_missing_path_deletes_entry
    (store : Store) (p : String) (sess : Session) (isDir : Bool)
    (listing : Option (List (String × Bool))) (out err now : String) :
    (resumeSession store p sess false isDir listing out err now).missing = true ∧
    (resumeSession store p sess false isDir listing out err now).store
      = eraseKey store p ∧
    (resumeSession store p sess false isDir listing out err now).call = none :=
  ⟨rfl, rfl, rfl⟩

/-! ## C1: the one-shot seek hook on folder resume -/

theorem hookStep_fired (target : ℚ) (l : List Seek) (evs : List Unit) :
    evs.foldl (hookStep target) (true, l) = (true, l) := by
  induction evs with
  | nil => rfl
  | cons e t ih => rw [List.foldl_cons]; exact ih

theorem runHook_single (target : ℚ) (evs : List Unit) (h : evs ≠ []) :
    runHook target evs = [⟨target, true⟩] := by
  cases evs with
  | nil => exact absurd rfl h
  | cons e t =>
    unfold runHook
    rw [List.foldl_cons]
    have hstep : hookStep target (false, []) e = (true, [⟨target, true⟩]) := rfl
    rw [hstep, hookStep_fired]

theorem hasMediaExt_ne_empty (nm : String) (h : hasMediaExt nm = true) :
    nm ≠ "" := by
  intro hnm
  rw [hnm] at h
  exact absurd h (by decide)

theorem pyJoin_ne_empty (folder nm : String) (h : nm ≠ "") :
    pyJoin folder nm ≠ "" := by
  have hd : nm.data ≠ [] := by
    intro hn
    exact h (by ext1; simp [hn])
  unfold pyJoin
  by_cases h1 : nm.data.head? = some '/'
  · rw [if_pos h1]; exact h
  · rw [if_neg h1]
    by_cases h2 : folder = "" ∨ folder.data.getLast? = some '/'
    · rw [if_pos h2]
      intro hc
      have h3 : folder.data ++ nm.data = ([] : List Char) := congrArg String.data hc
      exact hd (List.append_eq_nil.mp h3).2
    · rw [if_neg h2]
      intro hc
      have h3 : folder.data ++ ('/' :: nm.data) = ([] : List Char) := by
        have h4 : (folder ++ "/" ++ nm).data = ([] : List Char) := congrArg String.data hc
        simp [String.data_append, List.append_assoc] at h4
      exact List.cons_ne_nil _ _ (List.append_eq_nil.mp h3).2

theorem mem_get_media_files_ne_empty (folder : String)
    (listing : Option (List (String × Bool))) (x : String)
    (hx : x ∈ get_media_files folder listing) : x ≠ "" := by
  cases listing with
  | none => simp [get_media_files] at hx
  | some entries =>
    unfold get_media_files at hx
    rw [List.mem_insertionSort] at hx
    obtain ⟨e, he, hex⟩ := List.mem_map.mp hx
    have h5 := (List.mem_filter.mp he).2
    simp at h5
    have hext : hasMediaExt e.1 = true := h5.2
    rw [← hex]
    exact pyJoin_ne_empty folder e.1 (hasMediaExt_ne_empty e.1 hext)

/-- C1 counterexample: resuming a concrete folder session stored at
position 310 s with its anchor file present yields a hook whose seek target
is 305 s, not the stored offset 310 s — the claim's "exactly the stored
offset" fails. -/
theorem c1_seek_target_counterexample :
    (resumeSession [("/m", ⟨"/m", true, "/m/b.mp4", 310, "t"⟩)] "/m"
        ⟨"/m", true, "/m/b.mp4", 310, "t"⟩ true true (some [("b.mp4", true)])
        "" "" "t2").launch
      = some ⟨some 0, none, some 305⟩ ∧
    ((305 : ℚ) ≠ 310) := by
  constructor
  · have hm : ("/m/b.mp4" : String) ∈ get_media_files "/m" (some [("b.mp4", true)]) := by
      decide
    have hidx : (get_media_files "/m" (some [("b.mp4", true)])).indexOf
        ("/m/b.mp4" : String) = 0 := by decide
    have hpar : parsePlayOutput "" "" = none := rfl
    have hmax : max ((310 : ℚ) - 5) 0 = 305 := by norm_num
    simp [resumeSession, hpar, hm, hidx, buildCmd, truthyStr, hmax]
  · norm_num

/-- C1 amended: when resuming a folder session whose anchor file is found
in the fresh scan, `play` is called with the stored offset, the anchor's
index and the anchor file; the launcher then installs the one-shot hook
(no plain `--start` flag) whose single absolute seek — issued on the first
file-load event and never again — targets `max(stored offset − 5, 0)`,
i.e. five seconds before the stored position, floored at zero. -/
theorem c1_folder_resume_one_shot_seek
    (store : Store) (p : String) (sess : Session)
    (listing : Option (List (String × Bool))) (out err now : String)
    (hf : sess.is_folder = true)
    (hm : sess.last_played_file ∈ get_media_files p listing) :
    (resumeSession store p sess true true listing out err now).call
      = some ⟨some sess.last_played_position,
          some ((get_media_files p listing).indexOf sess.last_played_file),
          some sess.last_played_file⟩ ∧
    (resumeSession store p sess true true listing out err now).launch
      = some (buildCmd ⟨some sess.last_played_position,
          some ((get_media_files p listing).indexOf sess.last_played_file),
          some sess.last_played_file⟩ true) ∧
    (buildCmd ⟨some sess.last_played_position,
        some ((get_media_files p listing).indexOf sess.last_played_file),
        some sess.last_played_file⟩ true).scriptTarget
      = some (max (sess.last_played_position - 5) 0) ∧
    (buildCmd ⟨some sess.last_played_position,
        some ((get_media_files p listing).indexOf sess.last_played_file),
        some sess.last_played_file⟩ true).startFlag = none ∧
    (∀ evs : List Unit, evs ≠ [] →
      runHook (max (sess.last_played_position - 5) 0) evs
        = [⟨max (sess.last_played_position - 5) 0, true⟩]) := by
  have hne : sess.last_played_file ≠ "" :=
    mem_get_media_files_ne_empty p listing sess.last_played_file hm
  have hbuild : buildCmd ⟨some sess.last_played_position,
      some ((get_media_files p listing).indexOf sess.last_played_file),
      some sess.last_played_file⟩ true
      = { playlistStartFlag :=
            some ((get_media_files p listing).indexOf sess.last_played_file)
          startFlag := none
          scriptTarget := some (max (sess.last_played_position - 5) 0) } := by
    unfold buildCmd
    rw [if_pos]
    · rfl
    · simp [truthyStr, hne]
  refine ⟨?_, ?_, ?_, ?_, fun evs hevs => runHook_single _ evs hevs⟩
  · cases hp : parsePlayOutput out err <;> simp [resumeSession, hf, hm, hp]
  · cases hp : parsePlayOutput out err <;> simp [resumeSession, hf, hm, hp]
  · rw [hbuild]
  · rw [hbuild]

/-- Witness for C1's amended theorem at a concrete folder session. -/
theorem c1_folder_resume_one_shot_seek_witness :
    (buildCmd ⟨some (310 : ℚ),
        some ((get_media_files "/m" (some [("b.mp4", true)])).indexOf "/m/b.mp4"),
        some "/m/b.mp4"⟩ true).scriptTarget = some (max ((310 : ℚ) - 5) 0) :=
  (c1_folder_resume_one_shot_seek [] "/m" ⟨"/m", true, "/m/b.mp4", 310, "t"⟩
    (some [("b.mp4", true)]) "" "" "t2" rfl (by decide)).2.2.1

/-! ## C5: folder resume with the anchor file gone from the fresh scan -/

/-- C5: resuming a folder session whose stored `last_played_file` is absent
from the fresh scan launches `play` with start position 0, playlist index 0
and no anchor file, and surfaces the position-reset warning. -/
theorem c5_folder_anchor_missing_resets
    (store : Store) (p : String) (sess : Session) (isDir : Bool)
    (listing : Option (List (String × Bool))) (out err now : String)
    (hf : sess.is_folder = true)
    (hm : sess.last_played_file ∉ get_media_files p listing) :
    (resumeSession store p sess true isDir listing out err now).call
      = some ⟨some 0, some 0, none⟩ ∧
    (resumeSession store p sess true isDir listing out err now).reset = true := by
  cases hp : parsePlayOutput out err <;>
    simp [resumeSession, hf, hm, hp]

/-- Witness for C5 at a concrete folder session whose anchor is missing. -/
theorem c5_folder_anchor_missing_resets_witness :
    (resumeSession [] "/m" ⟨"/m", true, "/m/x.mp4", 100, "t"⟩ true true
        (some []) "" "" "t2").call = some ⟨some 0, some 0, none⟩ ∧
    (resumeSession [] "/m" ⟨"/m", true, "/m/x.mp4", 100, "t"⟩ true true
        (some []) "" "" "t2").reset = true :=
  c5_folder_anchor_missing_resets [] "/m" ⟨"/m", true, "/m/x.mp4", 100, "t"⟩
    true (some []) "" "" "t2" rfl (by simp [get_media_files])

/-! ## C7: which stream the exit-status parse searches -/

/-- C7 counterexample: a marker line that appears only on standard error is
ignored — the parse comes back empty even though the very same line parses
to a position when it is on standard output. -/
theorem c7_stderr_marker_ignored_counterexample :
    parsePlayOutput "" "[mpvRecall]PATH:/a.mp4#POS:00:05:10" = none ∧
    parsePlayOutput "[mpvRecall]PATH:/a.mp4#POS:00:05:10" ""
      = some ⟨"/a.mp4", 310⟩ := by
  constructor <;> decide

/-- C7 amended: the exit-status parse searches the captured standard output
only; the result never depends on what was captured on standard error. -/
theorem c7_parse_depends_on_stdout_only :
    (∀ out e₁ e₂ : String, parsePlayOutput out e₁ = parsePlayOutput out e₂) ∧
    parsePlayOutput "[mpvRecall]PATH:/b.mkv#POS:01:02:03" "ignored stderr"
      = some ⟨"/b.mkv", 3723⟩ := by
  exact ⟨fun _ _ _ => rfl, by decide⟩

end MpvRecall
